import Mathlib

/-!
# KDBindings — verification of the inferred engine specification

The repository ships only client/example code (`09_example/main.cpp`,
`10_lazyBindingExample/main.cpp`); the engine itself (`kdbindings/signal.h`,
`kdbindings/property.h`, `kdbindings/binding.h`) is not among the given
sources.  Following the specification, the engine is therefore modelled
here from the spec's own words: a multicast `Dispatcher` (signal/slot
core), `Connection Handle`s, `Observable Cell`s (properties), an
`Expression Graph` and a batching `Evaluator` with explicitly requested
recomputation (`evaluateAll`).

All definitions are executable, so each concrete scenario from the spec's
"Testable Properties" section can be decided by evaluation.
-/

set_option autoImplicit false

namespace KDBindings

/-! ## Dispatcher (signal/slot multicast core) -/

/-- Modelled from the spec (§3, §4.2; `kdbindings/signal.h` is missing from
the sources): a Connection Handle is a (dispatcher-identity, slot-id) pair;
validity is resolved through the dispatcher's own table. -/
structure Handle where
  did : Nat
  slot : Nat
deriving DecidableEq, Repr

/-- Modelled from the spec (§4.1 reentrancy contract): the observable
side-effects a handler may perform on the dispatch machinery while being
invoked — disconnecting some handle, or connecting a new (inert) handler. -/
inductive HEffect where
  | disc : Handle → HEffect
  | conn : HEffect

/-- Modelled from the spec (§3, §4.1; `kdbindings/signal.h` is missing from
the sources): a Dispatcher is an ordered sequence of (slot-id, callable)
entries with monotonically assigned unique ids.  A handler receives the
emitted arguments and may request effects on the dispatcher. -/
structure Dispatcher (α : Type) where
  did : Nat
  entries : List (Nat × (α → List HEffect))
  nextId : Nat

/-- Modelled from the spec: a fresh dispatcher with identity `i`. -/
def Dispatcher.empty (α : Type) (i : Nat) : Dispatcher α :=
  ⟨i, [], 0⟩

/-- Modelled from the spec (§4.1): `connect` registers the handler at the
end of the ordered entry list and returns a Connection Handle; ids are
monotonically assigned and never reused. -/
def Dispatcher.connect {α : Type} (d : Dispatcher α) (h : α → List HEffect) :
    Dispatcher α × Handle :=
  ({ d with entries := d.entries ++ [(d.nextId, h)], nextId := d.nextId + 1 },
   ⟨d.did, d.nextId⟩)

/-- Modelled from the spec (§4.1): `disconnect` removes the referenced
entry if present; it is a no-op for foreign-dispatcher handles and for
unknown or already-removed slot ids. -/
def Dispatcher.disconnect {α : Type} (d : Dispatcher α) (h : Handle) :
    Dispatcher α :=
  if h.did = d.did then
    { d with entries := d.entries.filter (fun p => p.1 ≠ h.slot) }
  else d

/-- Modelled from the spec: run the effects a handler requested during its
invocation, in order. -/
def Dispatcher.runEffects {α : Type} (d : Dispatcher α) :
    List HEffect → Dispatcher α
  | [] => d
  | HEffect.disc h :: es => Dispatcher.runEffects (d.disconnect h) es
  | HEffect.conn :: es => Dispatcher.runEffects (d.connect (fun _ => [])).1 es

/-- Modelled from the spec (§4.1): the emission loop walks a fixed snapshot
of slot ids taken at the start of `emit`; a slot is invoked only if it is
still connected when its turn comes, and the effects it requests are
applied immediately.  Returns the final dispatcher and the invocation log:
the (slot-id, arguments) of each handler actually invoked, in order. -/
def Dispatcher.emitLoop {α : Type} (args : α) :
    Dispatcher α → List Nat → Dispatcher α × List (Nat × α)
  | d, [] => (d, [])
  | d, i :: rest =>
    match d.entries.find? (fun p => p.1 = i) with
    | none => Dispatcher.emitLoop args d rest
    | some p =>
      let d1 := d.runEffects (p.2 args)
      let r := Dispatcher.emitLoop args d1 rest
      (r.1, (i, args) :: r.2)

/-- Modelled from the spec (§4.1): `emit` invokes every currently-connected
handler in registration order with the given arguments, under stable
snapshot semantics. -/
def Dispatcher.emit {α : Type} (d : Dispatcher α) (args : α) :
    Dispatcher α × List (Nat × α) :=
  Dispatcher.emitLoop args d (d.entries.map (fun p => p.1))

/-- Modelled from the spec: connect a whole list of handlers in order. -/
def Dispatcher.connectMany {α : Type} (d : Dispatcher α)
    (hs : List (α → List HEffect)) : Dispatcher α :=
  hs.foldl (fun d h => (d.connect h).1) d

/-! ### Dispatcher worlds (destruction of a dispatcher) -/

/-- Modelled from the spec (§3): the set of live dispatchers, keyed by
dispatcher identity; destroying a dispatcher removes it from the world and
thereby permanently invalidates every handle referencing it. -/
def World (α : Type) : Type := List (Nat × Dispatcher α)

/-- Modelled from the spec: destroying the dispatcher with identity `i`. -/
def World.destroy {α : Type} (w : World α) (i : Nat) : World α :=
  w.filter (fun p => p.1 ≠ i)

/-- Modelled from the spec (§4.2): disconnecting through a handle resolves
the handle through the dispatcher table; if the owning dispatcher no longer
exists this is a safe no-op, never an error. -/
def World.disconnect {α : Type} (w : World α) (h : Handle) : World α :=
  w.map (fun p => if p.1 = h.did then (p.1, p.2.disconnect h) else p)

/-! ## Observable cells, expression graphs and the evaluator

`kdbindings/property.h` and `kdbindings/binding.h` are missing from the
sources; the reactive engine below is modelled from the spec (§3, §4.3–§4.6).
Values are integers (the examples use `int`/`double` with integral values).
-/

/-- Modelled from the spec (§3, §4.4): an Expression Graph is an immutable
tree whose leaves are a constant or a non-owning reference to an Observable
Cell (by id) and whose interior nodes are operations over their children. -/
inductive Expr where
  | const : Int → Expr
  | ref : Nat → Expr
  | add : Expr → Expr → Expr
  | mul : Expr → Expr → Expr
deriving DecidableEq, Repr

/-- Modelled from the spec (§4.4): the recompute function extracted from a
graph — given current values of the cells, yields the derived value. -/
def Expr.eval : Expr → (Nat → Int) → Int
  | Expr.const c, _ => c
  | Expr.ref i, σ => σ i
  | Expr.add l r, σ => l.eval σ + r.eval σ
  | Expr.mul l r, σ => l.eval σ * r.eval σ

/-- Modelled from the spec (§4.4): the upstream cells referenced anywhere in
the tree; the dependency set is the set of members of this list. -/
def Expr.deps : Expr → List Nat
  | Expr.const _ => []
  | Expr.ref i => [i]
  | Expr.add l r => l.deps ++ r.deps
  | Expr.mul l r => l.deps ++ r.deps

/-- Modelled from the spec (§3): an Observable Cell holds a current value
and records whether it is derived (bound to an evaluator). -/
structure Cell where
  value : Int
  derived : Bool
deriving DecidableEq, Repr

/-- Modelled from the spec (§3, §4.6): an evaluator registry entry — the
bound cell's identity, its recompute graph, and the dirty flag. -/
structure EvalEntry where
  cell : Nat
  expr : Expr
  dirty : Bool
deriving DecidableEq, Repr

/-- Modelled from the spec (§3, §4.6): the whole reactive state — the cells
(keyed by id, ids monotonically assigned), the evaluator's registry in
registration order, plus two observation logs: `notifs` records every
change notification `(cell, new value)` emitted via a cell's change
notifier, and `recomps` records every recomputation `(cell, new value)`
performed by `evaluateAll`. -/
structure System where
  cells : List (Nat × Cell)
  entries : List EvalEntry
  nextId : Nat
  notifs : List (Nat × Int)
  recomps : List (Nat × Int)
deriving DecidableEq, Repr

def System.empty : System :=
  ⟨[], [], 0, [], []⟩

def System.findCell (s : System) (c : Nat) : Option Cell :=
  (s.cells.find? (fun p => p.1 = c)).map Prod.snd

/-- Modelled from the spec (§4.3): `get` is an O(1) read of the last
computed/assigned value; it never recomputes. -/
def System.getValue (s : System) (c : Nat) : Int :=
  match s.findCell c with
  | some cl => cl.value
  | none => 0

def System.isDerived (s : System) (c : Nat) : Bool :=
  match s.findCell c with
  | some cl => cl.derived
  | none => false

/-- Modelled from the spec: creating a fresh independent cell. -/
def System.newCell (s : System) (v : Int) : System × Nat :=
  ({ s with cells := s.cells ++ [(s.nextId, ⟨v, false⟩)],
             nextId := s.nextId + 1 },
   s.nextId)

/-- Update the first cell entry with the given id, if present. -/
def updateCell (l : List (Nat × Cell)) (c : Nat) (f : Cell → Cell) :
    List (Nat × Cell) :=
  match l with
  | [] => []
  | p :: rest =>
    if p.1 = c then (p.1, f p.2) :: rest else p :: updateCell rest c f

def System.setCellValue (s : System) (c : Nat) (v : Int) : System :=
  { s with cells := updateCell s.cells c (fun cl => { cl with value := v }) }

def System.setCellDerived (s : System) (c : Nat) : System :=
  { s with cells := updateCell s.cells c (fun cl => { cl with derived := true }) }

/-- Modelled from the spec (§4.5, §4.6): the "mark dirty" hooks subscribed
to a cell's change notifier — every registered entry whose graph depends on
the changed cell is flagged dirty; the hooks never recompute. -/
def markHook (c : Nat) (e : EvalEntry) : EvalEntry :=
  if c ∈ e.expr.deps then { e with dirty := true } else e

def System.markDependents (s : System) (c : Nat) : System :=
  { s with entries := s.entries.map (markHook c) }

/-- Modelled from the spec (§4.3): emitting on a cell's change notifier —
the notification is logged and the dirty-marking hooks fire. -/
def System.notify (s : System) (c : Nat) (v : Int) : System :=
  System.markDependents { s with notifs := s.notifs ++ [(c, v)] } c

inductive OpError where
  | assignToDerived
  | unknownCell
  | cycleDetected
deriving DecidableEq, Repr

/-- Modelled from the spec (§4.3, §7): `set` is permitted only on
non-derived cells; assigning to a derived cell is reported as a rejected
operation and leaves the state untouched.  On a non-derived cell the value
is updated immediately and, if it differs from the old value, the cell's
notifier emits synchronously. -/
def System.set (s : System) (c : Nat) (v : Int) : System × Option OpError :=
  match s.findCell c with
  | none => (s, some OpError.unknownCell)
  | some cl =>
    if cl.derived then (s, some OpError.assignToDerived)
    else if v = cl.value then (s.setCellValue c v, none)
    else (System.notify (s.setCellValue c v) c v, none)

/-- Modelled from the spec (§4.6): the direct dependencies of a cell as
recorded in the registry (empty for non-derived cells). -/
def System.directDeps (s : System) (c : Nat) : List Nat :=
  match s.entries.find? (fun e => e.cell = c) with
  | some e => e.expr.deps
  | none => []

def System.reachStep (s : System) (acc : List Nat) : List Nat :=
  (acc ++ acc.flatMap (fun c => s.directDeps c)).dedup

/-- Cells reachable from `acc` through registered dependencies, with enough
fuel to saturate. -/
def System.reach (s : System) : Nat → List Nat → List Nat
  | 0, acc => acc
  | n + 1, acc => System.reach s n (s.reachStep acc)

/-- Modelled from the spec (§4.6): static cycle detection at registration
time — binding `target` to graph `e` would close a dependency cycle exactly
when `target` is reachable from `e`'s dependencies. -/
def System.wouldCycle (s : System) (target : Nat) (e : Expr) : Bool :=
  target ∈ s.reach (s.entries.length + 1) e.deps

/-- Modelled from the spec (§4.5, §4.6): attaching a binding to a cell —
after the registration-time cycle check, performs the one eager evaluation
of the graph against current dependency values, stores that initial value,
marks the cell derived, and registers a clean (Bound/Clean) entry with the
evaluator.  A detected cycle fails only this registration attempt. -/
def System.bindCell (s : System) (target : Nat) (e : Expr) :
    System × Option OpError :=
  match s.findCell target with
  | none => (s, some OpError.unknownCell)
  | some _ =>
    if s.wouldCycle target e then (s, some OpError.cycleDetected)
    else
      let v := e.eval s.getValue
      let s1 := System.setCellDerived (s.setCellValue target v) target
      ({ s1 with entries := s1.entries ++ [⟨target, e, false⟩] }, none)

/-- Modelled from the spec (§4.5): the binding constructor
(`makeDerivedCell` / `makeBoundProperty`) — creates a fresh cell, eagerly
evaluates the graph once to produce its initial value, and registers the
recompute closure with the evaluator. -/
def makeDerivedCell (s : System) (e : Expr) : System × Nat :=
  let r := s.newCell 0
  ((r.1.bindCell r.2 e).1, r.2)

/-- Modelled from the spec (§4.6): processing the registry entry at index
`i` — if it is currently dirty, recompute, compare the new value to the
stored last value with equality on the value type, update storage, emit via
the cell's change notifier only if the value changed, and clear the dirty
flag regardless. -/
def System.evalStep (s : System) (i : Nat) : System :=
  match s.entries[i]? with
  | none => s
  | some en =>
    if en.dirty then
      let nv := en.expr.eval s.getValue
      let old := s.getValue en.cell
      let s1 := { s with entries := s.entries.set i { en with dirty := false },
                          recomps := s.recomps ++ [(en.cell, nv)] }
      let s2 := s1.setCellValue en.cell nv
      if nv = old then s2 else System.notify s2 en.cell nv
    else s

/-- Modelled from the spec (§4.6): `evaluateAll` walks the registry in
registration order — which, because every graph can only reference cells
that already existed when its binding was registered, refines topological
dependency order — recomputing every entry that is dirty when its turn
comes (including entries marked dirty by an upstream recomputation earlier
in the same pass). -/
def System.evaluateAll (s : System) : System :=
  (List.range s.entries.length).foldl System.evalStep s

/-- Modelled from the spec (§3): well-formedness maintained by the public
operations — every cell id and every registered dependency is below the
allocator's next id. -/
def System.wf (s : System) : Prop :=
  (∀ p ∈ s.cells, p.1 < s.nextId) ∧
  (∀ en ∈ s.entries, en.cell < s.nextId ∧ ∀ c ∈ en.expr.deps, c < s.nextId)

/-! ## Concrete scenarios from the spec's Testable Properties -/

/-- Cells `a = 2` (id 0) and `b = 3` (id 1). -/
def lazyS2 : System :=
  (((System.empty).newCell 2).1.newCell 3).1

/-- `d = makeDerivedCell(ev, a * b)` (id 2, initial value 6). -/
def lazyS3 : System :=
  (makeDerivedCell lazyS2 (Expr.mul (Expr.ref 0) (Expr.ref 1))).1

/-- After `a.set(5)` with no intervening `evaluateAll`. -/
def lazyS4 : System :=
  (lazyS3.set 0 5).1

/-- After `evaluateAll()`: `d` recomputed to 15. -/
def lazyS5 : System :=
  lazyS4.evaluateAll

/-- Chained derivation `c = makeDerivedCell(ev, d + 1)` (id 3, value 7). -/
def chainS4 : System :=
  (makeDerivedCell lazyS3 (Expr.add (Expr.ref 2) (Expr.const 1))).1

/-- After `a.set(5)` and `b.set(3)` (the latter writes the unchanged value). -/
def chainS5 : System :=
  ((chainS4.set 0 5).1.set 1 3).1

/-- One `evaluateAll()` over the chained scenario. -/
def chainS6 : System :=
  chainS5.evaluateAll

/-- Cycle scenario: `y` independent (id 0, value 1), then
`x = makeDerivedCell(ev, y + 1)` (id 1, value 2). -/
def cycS2 : System :=
  (makeDerivedCell ((System.empty).newCell 1).1
    (Expr.add (Expr.ref 0) (Expr.const 1))).1

/-- The attempt to close the cycle: bind `y` to the graph `x + 1`. -/
def cycAttempt : System × Option OpError :=
  cycS2.bindCell 0 (Expr.add (Expr.ref 1) (Expr.const 1))

/-- Stock example: `numberOfShares = 100` (id 0), `pricePerShare = 20`
(id 1), `totalValue = makeBoundProperty(evaluator, shares * price)`
(id 2, initial value 2000). -/
def stockS3 : System :=
  (makeDerivedCell ((((System.empty).newCell 100).1.newCell 20).1)
    (Expr.mul (Expr.ref 0) (Expr.ref 1))).1

/-- `pricePerShare = 25`, then `evaluateAll()` (total 2500). -/
def stockS5 : System :=
  ((stockS3.set 1 25).1).evaluateAll

/-- Both `numberOfShares = 120` and `pricePerShare = 30` written, no
`evaluateAll` yet. -/
def stockS6 : System :=
  ((stockS5.set 0 120).1.set 1 30).1

/-- The second `evaluateAll()` of the stock example. -/
def stockS7 : System :=
  stockS6.evaluateAll

/-- C7 scenario A: handler at slot 0 disconnects slot 1 during emission. -/
def dC7A : Dispatcher Nat :=
  (Dispatcher.empty Nat 0).connectMany
    [fun _ => [HEffect.disc ⟨0, 1⟩], fun _ => [], fun _ => []]

/-- C7 scenario B: handler at slot 1 disconnects itself during emission. -/
def dC7B : Dispatcher Nat :=
  (Dispatcher.empty Nat 0).connectMany
    [fun _ => [], fun _ => [HEffect.disc ⟨0, 1⟩], fun _ => []]

/-- C7 scenario C: handler at slot 0 connects a new handler during
emission. -/
def dC7C : Dispatcher Nat :=
  (Dispatcher.empty Nat 0).connectMany
    [fun _ => [HEffect.conn], fun _ => []]

/-! ### Basic dispatcher lemmas -/

theorem emitLoop_log_subset {α : Type} (args : α) :
    ∀ (ids : List Nat) (d : Dispatcher α),
      ((Dispatcher.emitLoop args d ids).2.map Prod.fst) ⊆ ids := by
  intro ids
  induction ids with
  | nil => intro d; simp [Dispatcher.emitLoop]
  | cons i rest ih =>
    intro d
    simp only [Dispatcher.emitLoop]
    cases hf : d.entries.find? (fun p => p.1 = i) with
    | none =>
      simp only [hf]
      exact List.Subset.trans (ih d) (List.subset_cons_self i rest)
    | some p =>
      simp only [hf, List.map_cons]
      intro x hx
      rcases List.mem_cons.mp hx with h1 | h2
      · simp [h1]
      · exact List.mem_cons_of_mem i (ih _ h2)

/-- Every invocation in an emit pass comes from the snapshot of entries
taken when `emit` started: stable snapshot semantics. -/
theorem emit_log_subset_snapshot {α : Type} (d : Dispatcher α) (args : α) :
    ((d.emit args).2.map Prod.fst) ⊆ d.entries.map (fun p => p.1) :=
  emitLoop_log_subset args _ d

theorem connectMany_entries {α : Type} :
    ∀ (hs : List (α → List HEffect)) (d : Dispatcher α),
      (d.connectMany hs).entries = d.entries ++ List.enumFrom d.nextId hs ∧
      (d.connectMany hs).nextId = d.nextId + hs.length := by
  intro hs
  induction hs with
  | nil => intro d; simp [Dispatcher.connectMany, List.enumFrom]
  | cons h rest ih =>
    intro d
    have step : Dispatcher.connectMany d (h :: rest) =
        Dispatcher.connectMany (d.connect h).1 rest := rfl
    rw [step]
    rcases ih (d.connect h).1 with ⟨he, hn⟩
    constructor
    · rw [he]
      simp [Dispatcher.connect, List.enumFrom, List.append_assoc]
    · rw [hn]
      simp [Dispatcher.connect, Nat.add_comm, Nat.add_assoc]

theorem enumFrom_map_fst {α : Type} :
    ∀ (l : List α) (n : Nat),
      (List.enumFrom n l).map Prod.fst = List.range' n l.length := by
  intro l
  induction l with
  | nil => intro n; simp [List.enumFrom]
  | cons x xs ih =>
    intro n
    simp [List.enumFrom, List.range', ih (n + 1)]

theorem enumFrom_mem_snd {α : Type} :
    ∀ (l : List α) (n : Nat) (p : Nat × α),
      p ∈ List.enumFrom n l → p.2 ∈ l := by
  intro l
  induction l with
  | nil => intro n p hp; simp [List.enumFrom] at hp
  | cons x xs ih =>
    intro n p hp
    simp only [List.enumFrom, List.mem_cons] at hp
    rcases hp with h1 | h2
    · simp [h1]
    · exact List.mem_cons_of_mem x (ih (n + 1) p h2)

theorem filter_idem {α : Type} (p : α → Bool) :
    ∀ l : List α, (l.filter p).filter p = l.filter p := by
  intro l
  induction l with
  | nil => rfl
  | cons x xs ih =>
    by_cases hx : p x = true
    · simp [List.filter_cons, hx, ih]
    · simp only [Bool.not_eq_true] at hx
      simp [List.filter_cons, hx, ih]

theorem filter_of_all {α : Type} (p : α → Bool) :
    ∀ l : List α, (∀ x ∈ l, p x = true) → l.filter p = l := by
  intro l
  induction l with
  | nil => intro _; rfl
  | cons x xs ih =>
    intro hall
    have hx := hall x (List.mem_cons_self x xs)
    simp [List.filter_cons, hx, ih (fun y hy => hall y (List.mem_cons_of_mem x hy))]

theorem map_id_of_fixed {α : Type} (f : α → α) :
    ∀ l : List α, (∀ x ∈ l, f x = x) → l.map f = l := by
  intro l
  induction l with
  | nil => intro _; rfl
  | cons x xs ih =>
    intro hall
    simp [hall x (List.mem_cons_self x xs),
          ih (fun y hy => hall y (List.mem_cons_of_mem x hy))]

/-- Invoking the emission loop on a dispatcher whose handlers are all inert
(no effects), over slot ids all currently connected, invokes each slot id
exactly once, in order, with the emitted arguments. -/
theorem emitLoop_inert {α : Type} (args : α) :
    ∀ (ids : List Nat) (d : Dispatcher α),
      (∀ p ∈ d.entries, ∀ a, p.2 a = []) →
      (∀ i ∈ ids, i ∈ d.entries.map (fun p => p.1)) →
      (Dispatcher.emitLoop args d ids).2 = ids.map (fun i => (i, args)) := by
  intro ids
  induction ids with
  | nil => intro d _ _; simp [Dispatcher.emitLoop]
  | cons i rest ih =>
    intro d hinert hmem
    have hi : i ∈ d.entries.map (fun p => p.1) := hmem i (List.mem_cons_self i rest)
    rcases List.mem_map.mp hi with ⟨p, hp, hpi⟩
    have hsome : (d.entries.find? (fun p => p.1 = i)).isSome := by
      rw [List.find?_isSome]
      exact ⟨p, hp, by simp [hpi]⟩
    rcases Option.isSome_iff_exists.mp hsome with ⟨q, hq⟩
    have hqmem : q ∈ d.entries := List.mem_of_find?_eq_some hq
    have hqin : ∀ a, q.2 a = [] := hinert q hqmem
    simp only [Dispatcher.emitLoop, hq]
    have hrun : d.runEffects (q.2 args) = d := by
      rw [hqin args]; rfl
    rw [hrun]
    rw [ih d hinert (fun j hj => hmem j (List.mem_cons_of_mem i hj))]
    simp

/-! ## Claim theorems: Dispatcher -/

/-- C1: for every Dispatcher and every sequence of N connect calls followed
by one emit(args), each of the N connected handlers is invoked exactly
once, in the order the connections were made, and each invocation receives
exactly the arguments passed to emit: the invocation log is precisely the
slot ids 0, …, N−1 in order, each paired with `args`. -/
theorem emit_invokes_all_in_order {α : Type} (hs : List (α → List HEffect))
    (args : α) (hinert : ∀ g ∈ hs, ∀ a, g a = []) :
    (((Dispatcher.empty α 0).connectMany hs).emit args).2 =
      (List.range hs.length).map (fun i => (i, args)) := by
  rcases connectMany_entries hs (Dispatcher.empty α 0) with ⟨he, _⟩
  have hent : ((Dispatcher.empty α 0).connectMany hs).entries =
      List.enumFrom 0 hs := by
    rw [he]; rfl
  have hin : ∀ p ∈ ((Dispatcher.empty α 0).connectMany hs).entries,
      ∀ a, p.2 a = [] := by
    intro p hp a
    rw [hent] at hp
    exact hinert p.2 (enumFrom_mem_snd hs 0 p hp) a
  have hids : ∀ i ∈ (((Dispatcher.empty α 0).connectMany hs).entries.map
      (fun p => p.1)), i ∈ (((Dispatcher.empty α 0).connectMany hs).entries.map
      (fun p => p.1)) := fun i hi => hi
  have hmain := emitLoop_inert args
    (((Dispatcher.empty α 0).connectMany hs).entries.map (fun p => p.1))
    ((Dispatcher.empty α 0).connectMany hs) hin hids
  have hrange : (((Dispatcher.empty α 0).connectMany hs).entries.map
      (fun p => p.1)) = List.range hs.length := by
    rw [hent]
    have h1 : (List.enumFrom 0 hs).map (fun p : Nat × (α → List HEffect) => p.1) =
        (List.enumFrom 0 hs).map Prod.fst := rfl
    rw [h1, enumFrom_map_fst, List.range_eq_range']
  rw [Dispatcher.emit, hmain, hrange]

/-- C1 witness: two inert handlers, emitted with argument 3. -/
theorem emit_invokes_all_in_order_witness :
    (((Dispatcher.empty Nat 0).connectMany
        [fun _ => [], fun _ => []]).emit 3).2 =
      (List.range 2).map (fun i => (i, 3)) := by
  refine emit_invokes_all_in_order [fun _ => [], fun _ => []] 3 ?_
  intro g hg a
  rcases List.mem_cons.mp hg with h1 | h2
  · rw [h1]
  · rcases List.mem_cons.mp h2 with h3 | h4
    · rw [h3]
    · exact absurd h4 (List.not_mem_nil g)

/-- C7: for every emit pass, every invocation comes from the snapshot of
entries taken when the pass started (so a handler connected during emission
is not invoked within that same pass); concretely, a handler that
disconnects another handler during emission prevents its later invocation
in the same pass while other handlers are delivered unaffected, a handler
that disconnects itself finishes the pass normally and is gone from the
next pass, and a handler connected during emission is delivered starting
with the next pass. -/
theorem emit_reentrancy_snapshot :
    (∀ (α : Type) (d : Dispatcher α) (args : α),
        ((d.emit args).2.map Prod.fst) ⊆ d.entries.map (fun p => p.1)) ∧
    (dC7A.emit 7).2 = [(0, 7), (2, 7)] ∧
    (dC7B.emit 7).2 = [(0, 7), (1, 7), (2, 7)] ∧
    ((dC7B.emit 7).1.emit 7).2 = [(0, 7), (2, 7)] ∧
    (dC7C.emit 7).2 = [(0, 7), (1, 7)] ∧
    ((dC7C.emit 7).1.emit 7).2 = [(0, 7), (1, 7), (2, 7)] := by
  refine ⟨fun α d args => emit_log_subset_snapshot d args, ?_, ?_, ?_, ?_, ?_⟩
  · decide
  · decide
  · decide
  · decide
  · decide

/-- C7 witness: the snapshot subset conjunct applied to the concrete
scenario-A dispatcher and invocation (0, 7). -/
theorem emit_reentrancy_snapshot_witness :
    (0 : Nat) ∈ dC7A.entries.map (fun p => p.1) :=
  emit_reentrancy_snapshot.1 Nat dC7A 7 (by decide)

/-- C8: disconnect through a Connection Handle is idempotent and a safe
no-op for foreign-dispatcher handles and for unknown or already-removed
slot ids; after the owning Dispatcher is destroyed, disconnect through any
handle referencing it leaves the world unchanged; and an emit after a
disconnect never invokes the disconnected handler. -/
theorem disconnect_idempotent_safe :
    (∀ (α : Type) (d : Dispatcher α) (h : Handle),
        (d.disconnect h).disconnect h = d.disconnect h) ∧
    (∀ (α : Type) (d : Dispatcher α) (h : Handle),
        h.did ≠ d.did → d.disconnect h = d) ∧
    (∀ (α : Type) (d : Dispatcher α) (h : Handle),
        h.slot ∉ d.entries.map (fun p => p.1) → d.disconnect h = d) ∧
    (∀ (α : Type) (w : World α) (i s : Nat),
        World.disconnect (World.destroy w i) ⟨i, s⟩ = World.destroy w i) ∧
    (∀ (α : Type) (d : Dispatcher α) (h : Handle) (args : α),
        h.did = d.did →
        h.slot ∉ ((d.disconnect h).emit args).2.map Prod.fst) := by
  refine ⟨?_, ?_, ?_, ?_, ?_⟩
  · intro α d h
    by_cases hd : h.did = d.did
    · simp [Dispatcher.disconnect, hd, filter_idem]
    · simp [Dispatcher.disconnect, hd]
  · intro α d h hne
    simp [Dispatcher.disconnect, hne]
  · intro α d h hmem
    by_cases hd : h.did = d.did
    · have hall : ∀ p ∈ d.entries,
          (fun p : Nat × (α → List HEffect) => decide (p.1 ≠ h.slot)) p = true := by
        intro p hp
        have hne : p.1 ≠ h.slot := by
          intro hcontra
          exact hmem (List.mem_map.mpr ⟨p, hp, hcontra⟩)
        simpa using hne
      simp only [Dispatcher.disconnect, if_pos hd]
      rw [filter_of_all _ d.entries hall]
    · simp [Dispatcher.disconnect, hd]
  · intro α w i s
    refine map_id_of_fixed _ (World.destroy w i) ?_
    intro p hp
    have hp2 : p ∈ w.filter (fun q => q.1 ≠ i) := hp
    have hpne : p.1 ≠ i := by
      have := (List.mem_filter.mp hp2).2
      simpa using this
    simp [hpne]
  · intro α d h args hdid hmem
    have hsub := emit_log_subset_snapshot (d.disconnect h) args
    have hsnap := hsub hmem
    simp only [Dispatcher.disconnect, if_pos hdid] at hsnap
    rcases List.mem_map.mp hsnap with ⟨p, hp, hps⟩
    have hfil : p.1 ≠ h.slot := by
      have := (List.mem_filter.mp hp).2
      simpa using this
    exact hfil hps

/-- C8 witness: the emit-after-disconnect conjunct applied to the
scenario-A dispatcher with the handle for slot 1. -/
theorem disconnect_idempotent_safe_witness :
    (1 : Nat) ∉ ((dC7A.disconnect ⟨0, 1⟩).emit 7).2.map Prod.fst :=
  disconnect_idempotent_safe.2.2.2.2 Nat dC7A ⟨0, 1⟩ 7 rfl

/-! ## Evaluator lemmas -/

theorem foldl_fixed {α β : Type} (f : α → β → α) (a : α) :
    ∀ l : List β, (∀ b, f a b = a) → l.foldl f a = a := by
  intro l
  induction l with
  | nil => intro _; rfl
  | cons x xs ih => intro h; rw [List.foldl_cons, h x]; exact ih h

theorem evalStep_of_clean (s : System) (i : Nat)
    (h : ∀ en ∈ s.entries, en.dirty = false) : s.evalStep i = s := by
  unfold System.evalStep
  cases hg : s.entries[i]? with
  | none => rfl
  | some en =>
    have hi : en ∈ s.entries := by
      rcases List.getElem?_eq_some_iff.mp hg with ⟨hlt, hget⟩
      exact hget ▸ List.getElem_mem hlt
    simp [h en hi]

/-- A state whose registry is entirely clean is a fixpoint of
`evaluateAll`: a second pass with no intervening dependency writes changes
nothing and emits nothing. -/
theorem evaluateAll_of_clean (s : System)
    (h : ∀ en ∈ s.entries, en.dirty = false) : s.evaluateAll = s :=
  foldl_fixed _ s _ (fun i => evalStep_of_clean s i h)

theorem find?_updateCell_ne (c c' : Nat) (f : Cell → Cell) (hne : c' ≠ c) :
    ∀ l : List (Nat × Cell),
      (updateCell l c f).find? (fun p => p.1 = c') =
        l.find? (fun p => p.1 = c') := by
  intro l
  induction l with
  | nil => rfl
  | cons p rest ih =>
    by_cases hp : p.1 = c
    · have hfalse : ¬((p.1, f p.2).1 = c') := by simp [hp, Ne.symm hne]
      have hfalse2 : ¬(p.1 = c') := by simp [hp, Ne.symm hne]
      simp only [updateCell, if_pos hp]
      rw [List.find?_cons_of_neg _ (by simpa using hfalse),
          List.find?_cons_of_neg _ (by simpa using hfalse2)]
    · simp only [updateCell, if_neg hp]
      by_cases hc : p.1 = c'
      · rw [List.find?_cons_of_pos _ (by simpa using hc),
            List.find?_cons_of_pos _ (by simpa using hc)]
      · rw [List.find?_cons_of_neg _ (by simpa using hc),
            List.find?_cons_of_neg _ (by simpa using hc)]
        exact ih

theorem find?_updateCell_self (c : Nat) (f : Cell → Cell) :
    ∀ l : List (Nat × Cell),
      (updateCell l c f).find? (fun p => p.1 = c) =
        (l.find? (fun p => p.1 = c)).map (fun q => (q.1, f q.2)) := by
  intro l
  induction l with
  | nil => rfl
  | cons p rest ih =>
    by_cases hp : p.1 = c
    · simp only [updateCell, if_pos hp]
      rw [List.find?_cons_of_pos _ (by simp [hp]),
          List.find?_cons_of_pos _ (by simp [hp])]
      rfl
    · simp only [updateCell, if_neg hp]
      rw [List.find?_cons_of_neg _ (by simpa using hp),
          List.find?_cons_of_neg _ (by simpa using hp)]
      exact ih

theorem findCell_setCellValue_self (s : System) (c : Nat) (v : Int) :
    (s.setCellValue c v).findCell c =
      (s.findCell c).map (fun cl => { cl with value := v }) := by
  unfold System.setCellValue System.findCell
  rw [find?_updateCell_self]
  cases s.cells.find? (fun p => p.1 = c) <;> rfl

theorem getValue_setCellValue_self (s : System) (c : Nat) (v : Int)
    (cl : Cell) (h : s.findCell c = some cl) :
    (s.setCellValue c v).getValue c = v := by
  unfold System.getValue
  rw [findCell_setCellValue_self, h]
  rfl

theorem getValue_setCellValue_ne (s : System) (c : Nat) (v : Int) (c' : Nat)
    (h : c' ≠ c) : (s.setCellValue c v).getValue c' = s.getValue c' := by
  unfold System.getValue System.setCellValue System.findCell
  rw [find?_updateCell_ne c c' _ h]

theorem getValue_setCellDerived (s : System) (c c' : Nat) :
    (s.setCellDerived c).getValue c' = s.getValue c' := by
  by_cases h : c' = c
  · subst h
    unfold System.getValue System.setCellDerived System.findCell
    rw [find?_updateCell_self]
    cases s.cells.find? (fun p => p.1 = c') <;> rfl
  · unfold System.getValue System.setCellDerived System.findCell
    rw [find?_updateCell_ne c c' _ h]

theorem getValue_notify (s : System) (c : Nat) (v : Int) (c' : Nat) :
    (System.notify s c v).getValue c' = s.getValue c' := rfl

/-- Writing one cell never changes the stored value of any other cell:
`get` on a derived cell keeps returning the last evaluated snapshot, no
matter how its dependencies were written, until `evaluateAll` runs. -/
theorem set_frame (s : System) (c : Nat) (v : Int) (c' : Nat) (h : c' ≠ c) :
    ((s.set c v).1).getValue c' = s.getValue c' := by
  unfold System.set
  cases hf : s.findCell c with
  | none => rfl
  | some cl =>
    by_cases hd : cl.derived = true
    · simp [hd]
    · simp only [Bool.not_eq_true] at hd
      by_cases hv : v = cl.value
      · simp only [hd, Bool.false_eq_true, if_false, if_pos hv]
        exact getValue_setCellValue_ne s c v c' h
      · simp only [hd, Bool.false_eq_true, if_false, if_neg hv]
        calc (System.notify (s.setCellValue c v) c v).getValue c'
            = (s.setCellValue c v).getValue c' := getValue_notify _ c v c'
          _ = s.getValue c' := getValue_setCellValue_ne s c v c' h

theorem eval_congr : ∀ (e : Expr) (σ τ : Nat → Int),
    (∀ c ∈ e.deps, σ c = τ c) → e.eval σ = e.eval τ := by
  intro e
  induction e with
  | const c => intro σ τ _; rfl
  | ref i => intro σ τ h; exact h i (by simp [Expr.deps])
  | add l r ihl ihr =>
    intro σ τ h
    simp only [Expr.eval]
    rw [ihl σ τ (fun c hc => h c (by simp [Expr.deps, hc])),
        ihr σ τ (fun c hc => h c (by simp [Expr.deps, hc]))]
  | mul l r ihl ihr =>
    intro σ τ h
    simp only [Expr.eval]
    rw [ihl σ τ (fun c hc => h c (by simp [Expr.deps, hc])),
        ihr σ τ (fun c hc => h c (by simp [Expr.deps, hc]))]

theorem find?_append_sing_ne {α : Type} (p : α → Bool) (x : α)
    (hx : p x = false) :
    ∀ l : List α, (l ++ [x]).find? p = l.find? p := by
  intro l
  induction l with
  | nil =>
    rw [List.nil_append, List.find?_cons_of_neg _ (by simp [hx])]
  | cons a as ih =>
    by_cases ha : p a = true
    · rw [List.cons_append, List.find?_cons_of_pos _ ha,
          List.find?_cons_of_pos _ ha]
    · rw [List.cons_append, List.find?_cons_of_neg _ ha,
          List.find?_cons_of_neg _ ha]
      exact ih

theorem find?_append_sing_self {α : Type} (p : α → Bool) (x : α)
    (hx : p x = true) :
    ∀ l : List α, l.find? p = none → (l ++ [x]).find? p = some x := by
  intro l
  induction l with
  | nil => intro _; exact List.find?_cons_of_pos _ hx
  | cons a as ih =>
    intro hnone
    have ha : ¬(p a = true) := by
      intro hpa
      rw [List.find?_cons_of_pos _ hpa] at hnone
      cases hnone
    rw [List.cons_append, List.find?_cons_of_neg _ ha]
    rw [List.find?_cons_of_neg _ ha] at hnone
    exact ih hnone

theorem findCell_newCell_ne (s : System) (v : Int) (c : Nat)
    (h : c ≠ s.nextId) : ((s.newCell v).1).findCell c = s.findCell c := by
  unfold System.newCell System.findCell
  exact congrArg (Option.map Prod.snd)
    (find?_append_sing_ne _ _ (by simp [Ne.symm h]) s.cells)

theorem getValue_newCell_ne (s : System) (v : Int) (c : Nat)
    (h : c ≠ s.nextId) : ((s.newCell v).1).getValue c = s.getValue c := by
  unfold System.getValue
  rw [findCell_newCell_ne s v c h]

theorem findCell_newCell_self (s : System) (v : Int)
    (hw : ∀ p ∈ s.cells, p.1 < s.nextId) :
    ((s.newCell v).1).findCell s.nextId = some ⟨v, false⟩ := by
  unfold System.newCell System.findCell
  have hnone : s.cells.find? (fun p => p.1 = s.nextId) = none := by
    rw [List.find?_eq_none]
    intro p hp
    have hlt := hw p hp
    simp only [decide_eq_true_eq]
    omega
  rw [find?_append_sing_self _ _ (by simp) _ hnone]
  rfl

theorem reach_bound (s : System) (N : Nat)
    (hent : ∀ en ∈ s.entries, ∀ c ∈ en.expr.deps, c < N) :
    ∀ (fuel : Nat) (acc : List Nat), (∀ c ∈ acc, c < N) →
      ∀ x ∈ s.reach fuel acc, x < N := by
  intro fuel
  induction fuel with
  | zero => intro acc hacc x hx; exact hacc x hx
  | succ n ih =>
    intro acc hacc x hx
    refine ih (s.reachStep acc) ?_ x hx
    intro c hc
    unfold System.reachStep at hc
    rw [List.mem_dedup] at hc
    rcases List.mem_append.mp hc with h1 | h2
    · exact hacc c h1
    · rcases List.mem_flatMap.mp h2 with ⟨a, _, hda⟩
      unfold System.directDeps at hda
      cases hf : s.entries.find? (fun en => en.cell = a) with
      | none => rw [hf] at hda; cases hda
      | some en =>
        rw [hf] at hda
        exact hent en (List.mem_of_find?_eq_some hf) c hda

theorem wouldCycle_fresh (s : System) (t : Nat) (e : Expr)
    (hent : ∀ en ∈ s.entries, ∀ c ∈ en.expr.deps, c < t)
    (hdeps : ∀ c ∈ e.deps, c < t) :
    s.wouldCycle t e = false := by
  unfold System.wouldCycle
  have hlt := reach_bound s t hent (s.entries.length + 1) e.deps hdeps
  simp only [decide_eq_false_iff_not]
  intro hmem
  exact absurd (hlt t hmem) (lt_irrefl t)

theorem bindCell_spec (s : System) (t : Nat) (e : Expr) (cl : Cell)
    (hfind : s.findCell t = some cl) (hcyc : s.wouldCycle t e = false) :
    s.bindCell t e =
      ({ System.setCellDerived (s.setCellValue t (e.eval s.getValue)) t with
          entries := s.entries ++ [⟨t, e, false⟩] }, none) := by
  unfold System.bindCell
  rw [hfind, hcyc]
  rfl

/-- The binding constructor: one eager evaluation against the current
dependency values gives the fresh cell's initial value; no notification is
emitted, no recomputation is logged, and the new registry entry starts
clean (Bound/Clean). -/
theorem makeDerivedCell_general (s : System) (e : Expr) (hw : s.wf)
    (hdeps : ∀ c ∈ e.deps, c < s.nextId) :
    ((makeDerivedCell s e).1).getValue (makeDerivedCell s e).2 =
        e.eval s.getValue ∧
    ((makeDerivedCell s e).1).notifs = s.notifs ∧
    ((makeDerivedCell s e).1).recomps = s.recomps ∧
    ((makeDerivedCell s e).1).entries =
        s.entries ++ [⟨s.nextId, e, false⟩] := by
  have hfind : ((s.newCell 0).1).findCell s.nextId = some ⟨0, false⟩ :=
    findCell_newCell_self s 0 hw.1
  have hcyc : ((s.newCell 0).1).wouldCycle s.nextId e = false := by
    refine wouldCycle_fresh _ _ _ ?_ hdeps
    intro en hen c hc
    exact (hw.2 en hen).2 c hc
  have h2 : makeDerivedCell s e =
      (((s.newCell 0).1.bindCell s.nextId e).1, s.nextId) := rfl
  have h1 := bindCell_spec (s.newCell 0).1 s.nextId e ⟨0, false⟩ hfind hcyc
  refine ⟨?_, ?_, ?_, ?_⟩
  · simp only [h2, h1]
    have hval : (System.setCellDerived
        ((s.newCell 0).1.setCellValue s.nextId
          (e.eval ((s.newCell 0).1).getValue)) s.nextId).getValue s.nextId =
        e.eval ((s.newCell 0).1).getValue := by
      rw [getValue_setCellDerived]
      exact getValue_setCellValue_self _ _ _ ⟨0, false⟩ hfind
    calc ({ System.setCellDerived
            ((s.newCell 0).1.setCellValue s.nextId
              (e.eval ((s.newCell 0).1).getValue)) s.nextId with
            entries := ((s.newCell 0).1).entries ++ [⟨s.nextId, e, false⟩]
          } : System).getValue s.nextId
        = e.eval ((s.newCell 0).1).getValue := hval
      _ = e.eval s.getValue := by
          refine eval_congr e _ _ ?_
          intro c hc
          exact getValue_newCell_ne s 0 c (Nat.ne_of_lt (hdeps c hc))
  · simp only [h2, h1]
    rfl
  · simp only [h2, h1]
    rfl
  · simp only [h2, h1]
    rfl

theorem set_getElem_self {α : Type} :
    ∀ (l : List α) (i : Nat) (a : α), l[i]? = some a → l.set i a = l := by
  intro l
  induction l with
  | nil => intro i a h; cases h
  | cons x xs ih =>
    intro i a h
    cases i with
    | zero =>
      simp only [List.getElem?_cons_zero, Option.some.injEq] at h
      rw [List.set_cons_zero, h]
    | succ n =>
      simp only [List.getElem?_cons_succ] at h
      rw [List.set_cons_succ, ih n a h]

theorem map_cell_markHook (c : Nat) :
    ∀ l : List EvalEntry,
      (l.map (markHook c)).map EvalEntry.cell = l.map EvalEntry.cell := by
  intro l
  rw [List.map_map]
  apply List.map_congr_left
  intro e _
  show (markHook c e).cell = e.cell
  unfold markHook
  split <;> rfl

theorem map_cell_clearDirty (l : List EvalEntry) (i : Nat) (en : EvalEntry)
    (h : l[i]? = some en) :
    (l.set i { en with dirty := false }).map EvalEntry.cell =
      l.map EvalEntry.cell := by
  rw [List.map_set]
  refine set_getElem_self _ i _ ?_
  rw [List.getElem?_map, h]
  rfl

theorem evalStep_of_none (s : System) (i : Nat)
    (h : s.entries[i]? = none) : s.evalStep i = s := by
  unfold System.evalStep
  rw [h]

theorem entries_map_cell_evalStep (s : System) (i : Nat) :
    (s.evalStep i).entries.map EvalEntry.cell =
      s.entries.map EvalEntry.cell := by
  unfold System.evalStep
  cases hg : s.entries[i]? with
  | none => rfl
  | some en =>
    by_cases hd : en.dirty = true
    · simp only [hd, if_true]
      by_cases hv : en.expr.eval s.getValue = s.getValue en.cell
      · simp only [if_pos hv]
        show ((s.entries.set i { en with dirty := false }).map EvalEntry.cell) = _
        exact map_cell_clearDirty s.entries i en hg
      · simp only [if_neg hv]
        show (((s.entries.set i { en with dirty := false }).map
            (markHook en.cell)).map EvalEntry.cell) = _
        rw [map_cell_markHook]
        exact map_cell_clearDirty s.entries i en hg
    · simp only [Bool.not_eq_true] at hd
      simp [hd]

theorem evalStep_recomps_some (s : System) (i : Nat) (en : EvalEntry)
    (h : s.entries[i]? = some en) :
    ∃ Δ : List (Nat × Int), (s.evalStep i).recomps = s.recomps ++ Δ ∧
      List.Sublist (Δ.map Prod.fst) [en.cell] := by
  unfold System.evalStep
  rw [h]
  by_cases hd : en.dirty = true
  · simp only [hd, if_true]
    by_cases hv : en.expr.eval s.getValue = s.getValue en.cell
    · refine ⟨[(en.cell, en.expr.eval s.getValue)], ?_, by simp⟩
      simp only [if_pos hv]
      rfl
    · refine ⟨[(en.cell, en.expr.eval s.getValue)], ?_, by simp⟩
      simp only [if_neg hv]
      rfl
  · simp only [Bool.not_eq_true] at hd
    exact ⟨[], by simp [hd], by simp⟩

/-- Invariant of the evaluation pass: processing the first `k` registry
positions preserves the registry's cell sequence and appends to the
recomputation log a run whose cells form a sublist of the first `k`
registered cells — i.e. recomputations happen in registration order, which
refines topological dependency order. -/
theorem evalPass_invariant : ∀ (k : Nat) (s : System),
    ((List.range k).foldl System.evalStep s).entries.map EvalEntry.cell =
        s.entries.map EvalEntry.cell ∧
    ∃ Δ : List (Nat × Int),
      ((List.range k).foldl System.evalStep s).recomps = s.recomps ++ Δ ∧
      List.Sublist (Δ.map Prod.fst) ((s.entries.map EvalEntry.cell).take k) := by
  intro k s
  induction k with
  | zero => exact ⟨rfl, ⟨[], by simp, by simp⟩⟩
  | succ k ih =>
    rcases ih with ⟨hmap, Δ, hrec, hsub⟩
    rw [List.range_succ, List.foldl_append]
    simp only [List.foldl_cons, List.foldl_nil]
    set t := (List.range k).foldl System.evalStep s with ht
    have htake_le : List.Sublist ((s.entries.map EvalEntry.cell).take k)
        ((s.entries.map EvalEntry.cell).take (k + 1)) :=
      (List.take_prefix_take_left _ (Nat.le_succ k)).sublist
    cases hg : t.entries[k]? with
    | none =>
      rw [evalStep_of_none t k hg]
      exact ⟨hmap, ⟨Δ, hrec, hsub.trans htake_le⟩⟩
    | some en =>
      refine ⟨?_, ?_⟩
      · rw [entries_map_cell_evalStep t k]; exact hmap
      · rcases evalStep_recomps_some t k en hg with ⟨Δ2, hr2, hs2⟩
        refine ⟨Δ ++ Δ2, ?_, ?_⟩
        · rw [hr2, hrec, List.append_assoc]
        · rw [List.map_append]
          have hcell : (s.entries.map EvalEntry.cell)[k]? = some en.cell := by
            rw [← hmap, List.getElem?_map, hg]
            rfl
          have htake : (s.entries.map EvalEntry.cell).take (k + 1) =
              (s.entries.map EvalEntry.cell).take k ++ [en.cell] := by
            rw [List.take_succ, hcell]
            rfl
          rw [htake]
          exact hsub.append hs2

/-! ## Claim theorems: Evaluator -/

/-- C3: the binding constructor performs exactly one eager evaluation of
the graph against the current values of its dependencies: the derived
cell's `get()` immediately after construction equals the computed value,
no notification fires, no recomputation is logged, and the registry entry
starts clean.  Concretely, with dependencies 2 and 3 composed by
multiplication the initial value is 6. -/
theorem makeDerivedCell_eager_initial_value :
    (∀ (s : System) (e : Expr), s.wf → (∀ c ∈ e.deps, c < s.nextId) →
        ((makeDerivedCell s e).1).getValue (makeDerivedCell s e).2 =
            e.eval s.getValue ∧
        ((makeDerivedCell s e).1).notifs = s.notifs ∧
        ((makeDerivedCell s e).1).recomps = s.recomps ∧
        ((makeDerivedCell s e).1).entries =
            s.entries ++ [⟨s.nextId, e, false⟩]) ∧
    lazyS3.getValue 2 = 6 ∧
    lazyS3.notifs = [] ∧
    lazyS3.entries.all (fun en => !en.dirty) = true := by
  refine ⟨makeDerivedCell_general, by decide, by decide, by decide⟩

/-- C3 witness: the general conjunct applied to cells `a = 2`, `b = 3` and
the graph `a * b`. -/
theorem makeDerivedCell_eager_initial_value_witness :
    ((makeDerivedCell lazyS2 (Expr.mul (Expr.ref 0) (Expr.ref 1))).1).getValue
        (makeDerivedCell lazyS2 (Expr.mul (Expr.ref 0) (Expr.ref 1))).2 =
      (Expr.mul (Expr.ref 0) (Expr.ref 1)).eval lazyS2.getValue :=
  (makeDerivedCell_eager_initial_value.1 lazyS2
    (Expr.mul (Expr.ref 0) (Expr.ref 1)) (by constructor <;> decide)
    (by decide)).1

/-- C5: within one `evaluateAll` pass recomputations happen in registration
order (the recomputation log's cells form a sublist of the registered cell
sequence), and registration order refines topological dependency order
because a graph can only reference cells that existed when its binding was
registered.  Concretely, with `d = a * b` and `c = d + 1`, after `a.set(5)`,
`b.set(3)` and one pass, `d` is recomputed to 15 before `c` is recomputed
to 16. -/
theorem evaluateAll_dependency_order :
    (∀ s : System, ∃ Δ : List (Nat × Int),
        (s.evaluateAll).recomps = s.recomps ++ Δ ∧
        List.Sublist (Δ.map Prod.fst) (s.entries.map EvalEntry.cell)) ∧
    chainS6.getValue 3 = 16 ∧
    chainS6.getValue 2 = 15 ∧
    chainS6.recomps = [(2, 15), (3, 16)] := by
  refine ⟨?_, by decide, by decide, by decide⟩
  intro s
  rcases (evalPass_invariant s.entries.length s).2 with ⟨Δ, hrec, hsub⟩
  refine ⟨Δ, hrec, ?_⟩
  have hlen : (s.entries.map EvalEntry.cell).take s.entries.length =
      s.entries.map EvalEntry.cell := by
    rw [← List.length_map s.entries EvalEntry.cell, List.take_length]
  rw [hlen] at hsub
  exact hsub

/-- C2: `evaluateAll` recomputes each dirty entry, compares with equality,
updates storage, notifies exactly once if and only if the value changed,
and clears the dirty flag; a fully clean registry is a fixpoint, so a
second `evaluateAll` with no intervening writes changes nothing and fires
nothing.  Concretely (spec §8.7–8.8): after the pass `d.get() = 15`, `d`'s
notifier fired exactly once with 15, the registry is clean, and the pass
is idempotent. -/
theorem evaluateAll_recompute_notify_once :
    (∀ s : System, (∀ en ∈ s.entries, en.dirty = false) →
        s.evaluateAll = s) ∧
    lazyS5.getValue 2 = 15 ∧
    lazyS5.recomps = [(2, 15)] ∧
    lazyS5.notifs.filter (fun p => p.1 = 2) = [(2, 15)] ∧
    lazyS5.entries.all (fun en => !en.dirty) = true ∧
    lazyS5.evaluateAll = lazyS5 := by
  refine ⟨evaluateAll_of_clean, by decide, by decide, by decide, by decide,
    by decide⟩

/-- C2 witness: the clean-fixpoint conjunct applied to the freshly built
binding state. -/
theorem evaluateAll_recompute_notify_once_witness :
    lazyS3.evaluateAll = lazyS3 :=
  evaluateAll_recompute_notify_once.1 lazyS3 (by decide)

/-- C4: writing an upstream dependency never changes any other cell's
stored value — reads are O(1) snapshots and never recompute.  Concretely
(spec §8.6): after `a.set(5)` with no `evaluateAll`, `d.get()` is still 6
even though `d`'s registry entry is marked dirty. -/
theorem get_returns_last_snapshot :
    (∀ (s : System) (c : Nat) (v : Int) (c' : Nat), c' ≠ c →
        ((s.set c v).1).getValue c' = s.getValue c') ∧
    lazyS4.getValue 2 = 6 ∧
    (lazyS4.entries.find? (fun en => en.cell = 2)).map EvalEntry.dirty =
      some true := by
  refine ⟨set_frame, by decide, by decide⟩

/-- C4 witness: the frame conjunct applied to `a.set(5)` and cell `d`. -/
theorem get_returns_last_snapshot_witness :
    ((lazyS3.set 0 5).1).getValue 2 = lazyS3.getValue 2 :=
  get_returns_last_snapshot.1 lazyS3 0 5 2 (by decide)

/-- C9: direct `set` on a derived cell is rejected with an explicit error
and leaves the state — in particular the cell's stored value — entirely
unchanged. -/
theorem set_on_derived_rejected :
    (∀ (s : System) (c : Nat) (v : Int), s.isDerived c = true →
        s.set c v = (s, some OpError.assignToDerived)) ∧
    lazyS3.set 2 99 = (lazyS3, some OpError.assignToDerived) ∧
    lazyS3.getValue 2 = 6 := by
  refine ⟨?_, by decide, by decide⟩
  intro s c v hd
  unfold System.isDerived at hd
  unfold System.set
  cases hf : s.findCell c with
  | none => rw [hf] at hd; simp at hd
  | some cl =>
    rw [hf] at hd
    simp only at hd
    simp [hd]

/-- C9 witness: applied to the chained scenario's derived cell `c`. -/
theorem set_on_derived_rejected_witness :
    chainS4.set 3 0 = (chainS4, some OpError.assignToDerived) :=
  set_on_derived_rejected.1 chainS4 3 0 (by decide)

/-- C6: the cyclic binding attempt (`x` derived from `y`, then binding `y`
to a graph over `x`) is detected at registration time and fails explicitly
with a cycle error; the failing attempt leaves the whole state unchanged,
so every other cell retains its last valid value. -/
theorem cycle_detected_at_registration :
    cycAttempt.2 = some OpError.cycleDetected ∧
    cycAttempt.1 = cycS2 ∧
    cycAttempt.1.getValue 0 = 1 ∧
    cycAttempt.1.getValue 1 = 2 := by
  refine ⟨by decide, by decide, by decide, by decide⟩

/-- C10: writing both dependencies of the stock example's `totalValue`
between two `evaluateAll` calls produces exactly one recomputation and
exactly one change notification in the next pass, carrying the value
computed from the final dependency values (120 · 30 = 3600). -/
theorem batched_writes_single_recompute :
    stockS7.recomps = stockS6.recomps ++ [(2, 3600)] ∧
    stockS7.notifs = stockS6.notifs ++ [(2, 3600)] ∧
    stockS7.getValue 2 = 3600 ∧
    stockS6.getValue 2 = 2500 := by
  refine ⟨by decide, by decide, by decide, by decide⟩

end KDBindings
